import Mathlib

/-!
Verification of `src/app/otbDecloudTimeSeriesPreProcessor.cxx` (CNES/decloud).

The C++ application is shallowly embedded: pixel values and timestamps
(C++ `float`, compared exactly in the source) are modelled as rationals `ℚ`;
`std::vector` becomes `List`; `unsigned int` indices become `ℕ`.
`std::sort` with a strict comparator `lt` guarantees only that the result is a
permutation, pairwise ordered by `¬ lt b a`; ties are unspecified, so it is
modelled by `List.insertionSort` on the non-strict key ordering.
Fatal application errors (`otbAppLogFATAL`, missing mandatory parameter)
become `Except AppError`.
-/

namespace Decloud

/-- `enum SortMode` (otbDecloudTimeSeriesPreProcessor.cxx lines 50-55). -/
inductive SortMode
  | ASC
  | DES
  | ABS
deriving DecidableEq, Repr

/-- Run-aborting errors of the application (spec §7): parse failure,
configuration error, fatal "no pairs" error. -/
inductive AppError
  | parseError
  | configError
  | fatalError
deriving DecidableEq, Repr

/-- `struct TimestampWithIndex` (lines 42-47). -/
structure TimestampWithIndex where
  timestamp : ℚ
  index : ℕ
deriving DecidableEq, Repr

/-- The configuration fields of `class PixelFunction` (lines 71-215):
pairs of (SAR, optical) image indices, band counts, no-data values,
number of output images. -/
structure PixelFunction where
  pairs : List (ℕ × ℕ)
  sarNbBands : ℕ
  optNbBands : ℕ
  sarNoDataValue : ℚ
  optNoDataValue : ℚ
  nbOutputImages : ℕ
deriving DecidableEq, Repr

/-- `PixelFunction::operator!=` (lines 77-81): always `false`. -/
def PixelFunction.notEqual (_f _other : PixelFunction) : Bool :=
  false

/-- `PixelFunction::operator==` (lines 82-86): `!(*this != other)`. -/
def PixelFunction.equal (f other : PixelFunction) : Bool :=
  !(f.notEqual other)

/-- `PixelFunction::OutputSize` (lines 89-93). -/
def PixelFunction.OutputSize (f : PixelFunction) : ℕ :=
  f.nbOutputImages * (f.sarNbBands + f.optNbBands)

/-- `PixelFunction::GetPixel` (lines 115-130): extract the sub-pixel of
input image `idx` from the stacked pixel `inPix`, i.e. bands
`idx*nbBands .. idx*nbBands+nbBands-1`.  Out-of-range reads (undefined
behaviour in the C++) default to `0`. -/
def GetPixel (inPix : List ℚ) (idx nbBands : ℕ) : List ℚ :=
  (List.range nbBands).map fun i => inPix.getD (idx * nbBands + i) 0

/-- `PixelFunction::IsNoData` (lines 135-142): true iff every band equals
the no-data value (exact comparison). -/
def IsNoData (pix : List ℚ) (noDataValue : ℚ) : Bool :=
  pix.all fun v => v = noDataValue

/-- Writing the values `vals` into `l` starting at position `start`
(the inner copy loops of `operator()`, lines 188-197). -/
def writeAt (l : List ℚ) (start : ℕ) : List ℚ → List ℚ
  | [] => l
  | v :: vs => writeAt (l.set start v) (start + 1) vs

/-- The sentinel initialization of one output slot: `m_SARNoDataValue`
repeated `m_SARNbBands` times then `m_OptNoDataValue` repeated
`m_OptNbBands` times (lines 157-169, one `imgIdx` iteration). -/
def PixelFunction.slotSentinel (f : PixelFunction) : List ℚ :=
  List.replicate f.sarNbBands f.sarNoDataValue ++
    List.replicate f.optNbBands f.optNoDataValue

/-- The fully sentinel-initialized output pixel (lines 153-169). -/
def PixelFunction.initOutPix (f : PixelFunction) : List ℚ :=
  (List.replicate f.nbOutputImages f.slotSentinel).flatten

/-- The radar sub-pixel read for a pair (line 182). -/
def PixelFunction.sarSub (f : PixelFunction) (inSARPix : List ℚ) (p : ℕ × ℕ) : List ℚ :=
  GetPixel inSARPix p.1 f.sarNbBands

/-- The optical sub-pixel read for a pair (line 183). -/
def PixelFunction.optSub (f : PixelFunction) (inOptPix : List ℚ) (p : ℕ × ℕ) : List ℚ :=
  GetPixel inOptPix p.2 f.optNbBands

/-- The validity test of a pair for a pixel (line 186): neither sub-pixel
is entirely no-data. -/
def PixelFunction.pairValid (f : PixelFunction) (inSARPix inOptPix : List ℚ) (p : ℕ × ℕ) : Bool :=
  !(IsNoData (f.sarSub inSARPix p) f.sarNoDataValue) &&
    !(IsNoData (f.optSub inOptPix p) f.optNoDataValue)

/-- The pair-scanning loop of `PixelFunction::operator()` (lines 171-201).
State: remaining pairs, current output pixel, `outBand`, `currentNbOutput`.
The loop condition `pair != end && currentNbOutput < m_NbOutputImages`
is checked before each iteration. -/
def PixelFunction.fuseLoop (f : PixelFunction) (inSARPix inOptPix : List ℚ) :
    List (ℕ × ℕ) → List ℚ → ℕ → ℕ → List ℚ
  | [], outPix, _, _ => outPix
  | p :: rest, outPix, outBand, currentNbOutput =>
    if currentNbOutput < f.nbOutputImages then
      if f.pairValid inSARPix inOptPix p then
        f.fuseLoop inSARPix inOptPix rest
          (writeAt outPix outBand (f.sarSub inSARPix p ++ f.optSub inOptPix p))
          (outBand + (f.sarNbBands + f.optNbBands)) (currentNbOutput + 1)
      else
        f.fuseLoop inSARPix inOptPix rest outPix outBand currentNbOutput
    else
      outPix

/-- `PixelFunction::operator()` (lines 149-205): sentinel-initialize the
output, then scan the pairs. -/
def PixelFunction.fuse (f : PixelFunction) (inSARPix inOptPix : List ℚ) : List ℚ :=
  f.fuseLoop inSARPix inOptPix f.pairs f.initOutPix 0 0

/-- The pairs of `f.pairs` that are valid for the given pixel, in order. -/
def PixelFunction.validPairs (f : PixelFunction) (inSARPix inOptPix : List ℚ) : List (ℕ × ℕ) :=
  f.pairs.filter (f.pairValid inSARPix inOptPix)

/-- Slot `i` of a fused pixel: the `w` values starting at position `i*w`. -/
def slot (l : List ℚ) (i w : ℕ) : List ℚ :=
  (l.drop (i * w)).take w

/-- The radar-then-optical concatenated sub-pixel of a pair. -/
def PixelFunction.pairSub (f : PixelFunction) (inSARPix inOptPix : List ℚ) (p : ℕ × ℕ) : List ℚ :=
  f.sarSub inSARPix p ++ f.optSub inOptPix p

theorem GetPixel_length (inPix : List ℚ) (idx nbBands : ℕ) :
    (GetPixel inPix idx nbBands).length = nbBands := by
  simp [GetPixel]

theorem slotSentinel_length (f : PixelFunction) :
    f.slotSentinel.length = f.sarNbBands + f.optNbBands := by
  simp [PixelFunction.slotSentinel]

theorem pairSub_length (f : PixelFunction) (inSARPix inOptPix : List ℚ) (p : ℕ × ℕ) :
    (f.pairSub inSARPix inOptPix p).length = f.sarNbBands + f.optNbBands := by
  simp [PixelFunction.pairSub, PixelFunction.sarSub, PixelFunction.optSub, GetPixel_length]

theorem initOutPix_length (f : PixelFunction) :
    f.initOutPix.length = f.nbOutputImages * (f.sarNbBands + f.optNbBands) := by
  simp [PixelFunction.initOutPix, List.length_flatten, slotSentinel_length, List.map_replicate,
    Nat.mul_comm]

theorem writeAt_append (vals : List ℚ) : ∀ (pre suf : List ℚ),
    vals.length ≤ suf.length →
    writeAt (pre ++ suf) pre.length vals = pre ++ vals ++ suf.drop vals.length := by
  induction vals with
  | nil => intro pre suf _; simp [writeAt]
  | cons v vs ih =>
    intro pre suf h
    match suf with
    | [] => simp at h
    | s :: suf' =>
      rw [writeAt]
      have hset : (pre ++ s :: suf').set pre.length v = (pre ++ [v]) ++ suf' := by
        rw [List.set_append]
        simp
      have hlen : pre.length + 1 = (pre ++ [v]).length := by simp
      rw [hset, hlen, ih (pre ++ [v]) suf' (by simpa using h)]
      simp

theorem drop_flatten_replicate (s : List ℚ) : ∀ (m N : ℕ),
    ((List.replicate N s).flatten).drop (m * s.length) =
      (List.replicate (N - m) s).flatten := by
  intro m
  induction m with
  | zero => intro N; simp
  | succ m ih =>
    intro N
    match N with
    | 0 => simp
    | n + 1 =>
      have harith : (m + 1) * s.length = s.length + m * s.length := by ring
      rw [harith, List.replicate_succ, List.flatten_cons, ← List.drop_drop, List.drop_left,
        ih n, Nat.succ_sub_succ]

/-- Invariant of the pair-scanning loop: starting from an output pixel
`pre ++ suf` with `pre` the `cnt` already-filled slots and `suf` the
remaining slot space, the loop appends the sub-pixels of the first
`nbOutputImages - cnt` valid pairs and keeps the rest of `suf`. -/
theorem fuseLoop_spec (f : PixelFunction) (inSARPix inOptPix : List ℚ) :
    ∀ (ps : List (ℕ × ℕ)) (pre suf : List ℚ) (cnt : ℕ),
    pre.length = cnt * (f.sarNbBands + f.optNbBands) →
    suf.length = (f.nbOutputImages - cnt) * (f.sarNbBands + f.optNbBands) →
    f.fuseLoop inSARPix inOptPix ps (pre ++ suf) pre.length cnt =
      pre ++ ((ps.filter (f.pairValid inSARPix inOptPix)).take
          (f.nbOutputImages - cnt)).flatMap (f.pairSub inSARPix inOptPix) ++
        suf.drop (((ps.filter (f.pairValid inSARPix inOptPix)).take
          (f.nbOutputImages - cnt)).length * (f.sarNbBands + f.optNbBands)) := by
  intro ps
  induction ps with
  | nil =>
    intro pre suf cnt _ _
    simp [PixelFunction.fuseLoop]
  | cons p rest ih =>
    intro pre suf cnt hpre hsuf
    by_cases hcnt : cnt < f.nbOutputImages
    · have hpos : 0 < f.nbOutputImages - cnt := Nat.sub_pos_of_lt hcnt
      by_cases hval : f.pairValid inSARPix inOptPix p
      · rw [PixelFunction.fuseLoop, if_pos hcnt, if_pos hval]
        have hsubw : (f.pairSub inSARPix inOptPix p).length =
            f.sarNbBands + f.optNbBands := pairSub_length f inSARPix inOptPix p
        have hwle : (f.pairSub inSARPix inOptPix p).length ≤ suf.length := by
          rw [hsubw, hsuf]
          calc f.sarNbBands + f.optNbBands
              = 1 * (f.sarNbBands + f.optNbBands) := (Nat.one_mul _).symm
            _ ≤ (f.nbOutputImages - cnt) * (f.sarNbBands + f.optNbBands) :=
                Nat.mul_le_mul_right _ hpos
        rw [show f.sarSub inSARPix p ++ f.optSub inOptPix p =
              f.pairSub inSARPix inOptPix p from rfl,
          writeAt_append _ _ _ hwle]
        have hlen1 : pre.length + (f.sarNbBands + f.optNbBands) =
            (pre ++ f.pairSub inSARPix inOptPix p).length := by
          simp [hsubw]
        have happ : pre ++ f.pairSub inSARPix inOptPix p ++
            suf.drop (f.pairSub inSARPix inOptPix p).length =
            (pre ++ f.pairSub inSARPix inOptPix p) ++
              suf.drop (f.sarNbBands + f.optNbBands) := by
          rw [hsubw, List.append_assoc]
        rw [happ, hlen1,
          ih (pre ++ f.pairSub inSARPix inOptPix p)
            (suf.drop (f.sarNbBands + f.optNbBands)) (cnt + 1)
            (by simp [hpre, hsubw]; ring)
            (by
              rw [List.length_drop, hsuf]
              have hk : f.nbOutputImages - cnt = (f.nbOutputImages - (cnt + 1)) + 1 := by
                omega
              rw [hk, Nat.succ_mul, Nat.add_sub_cancel])]
        rw [List.filter_cons_of_pos hval,
          List.take_cons hpos, List.flatMap_cons]
        have hsub1 : f.nbOutputImages - cnt - 1 = f.nbOutputImages - (cnt + 1) := by omega
        have hlen2 : ((p :: (rest.filter (f.pairValid inSARPix inOptPix)).take
              (f.nbOutputImages - cnt - 1)).length * (f.sarNbBands + f.optNbBands)) =
            (f.sarNbBands + f.optNbBands) +
              ((rest.filter (f.pairValid inSARPix inOptPix)).take
                (f.nbOutputImages - cnt - 1)).length * (f.sarNbBands + f.optNbBands) := by
          simp [List.length_cons]
          ring
        rw [hlen2, ← List.drop_drop, hsub1]
        simp [List.append_assoc]
      · rw [PixelFunction.fuseLoop, if_pos hcnt, if_neg hval,
          ih pre suf cnt hpre hsuf, List.filter_cons_of_neg hval]
    · rw [PixelFunction.fuseLoop, if_neg hcnt]
      have h0 : f.nbOutputImages - cnt = 0 := Nat.sub_eq_zero_of_le (Nat.le_of_not_lt hcnt)
      simp [h0]

/-- Closed form of `PixelFunction::operator()`: the output is the
concatenated sub-pixels of the first `nbOutputImages` valid pairs,
followed by untouched sentinel slots. -/
theorem fuse_spec (f : PixelFunction) (inSARPix inOptPix : List ℚ) :
    f.fuse inSARPix inOptPix =
      ((f.validPairs inSARPix inOptPix).take f.nbOutputImages).flatMap
          (f.pairSub inSARPix inOptPix) ++
        (List.replicate (f.nbOutputImages -
            ((f.validPairs inSARPix inOptPix).take f.nbOutputImages).length)
          f.slotSentinel).flatten := by
  have h := fuseLoop_spec f inSARPix inOptPix f.pairs [] f.initOutPix 0
    (by simp) (by simp [initOutPix_length])
  simp only [List.nil_append, List.length_nil] at h
  rw [PixelFunction.fuse, h]
  rw [PixelFunction.initOutPix, ← slotSentinel_length f, drop_flatten_replicate]
  rfl

theorem slot_flatten (w : ℕ) : ∀ (L : List (List ℚ)) (t : List ℚ),
    (∀ x ∈ L, x.length = w) →
    ∀ (i : ℕ) (hi : i < L.length), slot (L.flatten ++ t) i w = L.get ⟨i, hi⟩ := by
  intro L
  induction L with
  | nil =>
    intro t _ i hi
    exact absurd hi (by simp)
  | cons x xs ih =>
    intro t hw i hi
    have hx : x.length = w := hw x (List.mem_cons_self x xs)
    cases i with
    | zero =>
      show (((x :: xs).flatten ++ t).drop (0 * w)).take w = x
      rw [Nat.zero_mul, List.drop_zero, List.flatten_cons, List.append_assoc, ← hx,
        List.take_left]
    | succ j =>
      have harith : (j + 1) * w = x.length + j * w := by rw [hx]; ring
      show (((x :: xs).flatten ++ t).drop ((j + 1) * w)).take w = _
      rw [List.flatten_cons, List.append_assoc, harith, List.drop_append]
      exact ih t (fun y hy => hw y (List.mem_cons_of_mem x hy)) j (Nat.lt_of_succ_lt_succ hi)

theorem flatMap_pairSub_length (f : PixelFunction) (inSARPix inOptPix : List ℚ)
    (l : List (ℕ × ℕ)) :
    (l.flatMap (f.pairSub inSARPix inOptPix)).length =
      l.length * (f.sarNbBands + f.optNbBands) := by
  induction l with
  | nil => simp
  | cons p rest ih =>
    rw [List.flatMap_cons, List.length_append, pairSub_length, ih, List.length_cons,
      Nat.succ_mul]
    ring

/-- C1: with at least `nbOutputImages` valid pairs for a pixel, the output
is exactly the concatenated sub-pixels of the first `nbOutputImages` valid
pairs of `m_Pairs` (in order), and any pairs list agreeing on those first
valid pairs — in particular any change after the N-th valid pair — gives
the same output. -/
theorem fuse_first_valid_pairs (f : PixelFunction) (inSARPix inOptPix : List ℚ)
    (hN : f.nbOutputImages ≤ (f.validPairs inSARPix inOptPix).length) :
    f.fuse inSARPix inOptPix =
      ((f.validPairs inSARPix inOptPix).take f.nbOutputImages).flatMap
        (f.pairSub inSARPix inOptPix) ∧
    ∀ qs : List (ℕ × ℕ),
      (qs.filter (f.pairValid inSARPix inOptPix)).take f.nbOutputImages =
        (f.validPairs inSARPix inOptPix).take f.nbOutputImages →
      PixelFunction.fuse
          ⟨qs, f.sarNbBands, f.optNbBands, f.sarNoDataValue, f.optNoDataValue,
            f.nbOutputImages⟩ inSARPix inOptPix =
        f.fuse inSARPix inOptPix := by
  have hlen : ((f.validPairs inSARPix inOptPix).take f.nbOutputImages).length =
      f.nbOutputImages := by
    rw [List.length_take]
    exact Nat.min_eq_left hN
  constructor
  · rw [fuse_spec, hlen, Nat.sub_self]
    simp
  · intro qs hq
    have h1 := fuse_spec
      ⟨qs, f.sarNbBands, f.optNbBands, f.sarNoDataValue, f.optNoDataValue,
        f.nbOutputImages⟩ inSARPix inOptPix
    have hvq : PixelFunction.validPairs
        ⟨qs, f.sarNbBands, f.optNbBands, f.sarNoDataValue, f.optNoDataValue,
          f.nbOutputImages⟩ inSARPix inOptPix =
        qs.filter (f.pairValid inSARPix inOptPix) := rfl
    rw [hvq] at h1
    rw [h1, hq, fuse_spec, hlen]
    rfl

/-- C2: with fewer than `nbOutputImages` valid pairs, the trailing slots of
the output are exactly the sentinel fill, and every slot is either entirely
the sub-pixel of one valid pair or entirely the sentinel slot. -/
theorem fuse_sentinel_trailing (f : PixelFunction) (inSARPix inOptPix : List ℚ)
    (h : (f.validPairs inSARPix inOptPix).length < f.nbOutputImages) :
    (f.fuse inSARPix inOptPix).drop
        ((f.validPairs inSARPix inOptPix).length * (f.sarNbBands + f.optNbBands)) =
      (List.replicate (f.nbOutputImages - (f.validPairs inSARPix inOptPix).length)
        f.slotSentinel).flatten ∧
    ∀ i < f.nbOutputImages,
      slot (f.fuse inSARPix inOptPix) i (f.sarNbBands + f.optNbBands) =
        if hi : i < (f.validPairs inSARPix inOptPix).length
        then f.pairSub inSARPix inOptPix ((f.validPairs inSARPix inOptPix).get ⟨i, hi⟩)
        else f.slotSentinel := by
  have htake : (f.validPairs inSARPix inOptPix).take f.nbOutputImages =
      f.validPairs inSARPix inOptPix :=
    List.take_of_length_le (Nat.le_of_lt h)
  have hfuse := fuse_spec f inSARPix inOptPix
  rw [htake] at hfuse
  have hplen : ((f.validPairs inSARPix inOptPix).flatMap
      (f.pairSub inSARPix inOptPix)).length =
      (f.validPairs inSARPix inOptPix).length * (f.sarNbBands + f.optNbBands) :=
    flatMap_pairSub_length f inSARPix inOptPix _
  constructor
  · rw [hfuse, ← hplen, List.drop_left]
  · intro i hiN
    by_cases hi : i < (f.validPairs inSARPix inOptPix).length
    · rw [dif_pos hi, hfuse]
      have hmap : (f.validPairs inSARPix inOptPix).flatMap (f.pairSub inSARPix inOptPix) =
          ((f.validPairs inSARPix inOptPix).map (f.pairSub inSARPix inOptPix)).flatten :=
        List.flatMap_def _ _
      rw [hmap]
      have hi' : i < ((f.validPairs inSARPix inOptPix).map
          (f.pairSub inSARPix inOptPix)).length := by
        simpa using hi
      rw [slot_flatten (f.sarNbBands + f.optNbBands) _ _
        (by
          intro x hx
          rcases List.mem_map.mp hx with ⟨p, _, hp⟩
          rw [← hp]
          exact pairSub_length f inSARPix inOptPix p) i hi']
      rw [List.get_map]
    · rw [dif_neg hi, hfuse]
      have hieq : i = (f.validPairs inSARPix inOptPix).length +
          (i - (f.validPairs inSARPix inOptPix).length) := by omega
      show (((f.validPairs inSARPix inOptPix).flatMap (f.pairSub inSARPix inOptPix) ++
          (List.replicate (f.nbOutputImages - (f.validPairs inSARPix inOptPix).length)
            f.slotSentinel).flatten).drop (i * (f.sarNbBands + f.optNbBands))).take
          (f.sarNbBands + f.optNbBands) = f.slotSentinel
      rw [hieq, Nat.add_mul, ← hplen, List.drop_append]
      have hrep := slot_flatten (f.sarNbBands + f.optNbBands)
        (List.replicate (f.nbOutputImages - (f.validPairs inSARPix inOptPix).length)
          f.slotSentinel) []
        (by
          intro x hx
          rw [List.eq_of_mem_replicate hx]
          exact slotSentinel_length f)
        (i - (f.validPairs inSARPix inOptPix).length)
        (by simp; omega)
      rw [List.append_nil] at hrep
      exact hrep.trans (List.get_replicate _ _)

/-- The example fusion functor of the spec (§8): radarBandCount=2,
opticalBandCount=1, N=1, radarSentinel=0, opticalSentinel=−9999,
resolvedPairs=[(0,0),(1,0)]. -/
def pfExample : PixelFunction :=
  ⟨[(0, 0), (1, 0)], 2, 1, 0, -9999, 1⟩

/-- C7: on the spec's worked example the output is `[5,5,7]`: pair (0,0)
is skipped (radar sub-pixel all-sentinel) and pair (1,0) fills the single
slot. -/
theorem fuse_example_value :
    pfExample.fuse [0, 0, 5, 5] [7] = [5, 5, 7] ∧
    IsNoData (pfExample.sarSub [0, 0, 5, 5] (0, 0)) pfExample.sarNoDataValue = true ∧
    pfExample.pairValid [0, 0, 5, 5] [7] (1, 0) = true := by
  decide

/-- Witness for C1 at the spec's example configuration: one output slot,
two pairs of which the second is the first valid one. -/
theorem fuse_first_valid_pairs_witness :
    pfExample.nbOutputImages ≤ (pfExample.validPairs [0, 0, 5, 5] [7]).length ∧
    (pfExample.fuse [0, 0, 5, 5] [7] =
      ((pfExample.validPairs [0, 0, 5, 5] [7]).take pfExample.nbOutputImages).flatMap
        (pfExample.pairSub [0, 0, 5, 5] [7]) ∧
    ∀ qs : List (ℕ × ℕ),
      (qs.filter (pfExample.pairValid [0, 0, 5, 5] [7])).take pfExample.nbOutputImages =
        (pfExample.validPairs [0, 0, 5, 5] [7]).take pfExample.nbOutputImages →
      PixelFunction.fuse
          ⟨qs, pfExample.sarNbBands, pfExample.optNbBands, pfExample.sarNoDataValue,
            pfExample.optNoDataValue, pfExample.nbOutputImages⟩ [0, 0, 5, 5] [7] =
        pfExample.fuse [0, 0, 5, 5] [7]) :=
  ⟨by decide, fuse_first_valid_pairs pfExample [0, 0, 5, 5] [7] (by decide)⟩

/-- A configuration with two output slots and a single, invalid pair:
the whole output stays sentinel-filled. -/
def pfExample2 : PixelFunction :=
  ⟨[(0, 0)], 2, 1, 0, -9999, 2⟩

/-- Witness for C2: zero valid pairs out of two output slots. -/
theorem fuse_sentinel_trailing_witness :
    (pfExample2.validPairs [0, 0] [7]).length < pfExample2.nbOutputImages ∧
    ((pfExample2.fuse [0, 0] [7]).drop
        ((pfExample2.validPairs [0, 0] [7]).length *
          (pfExample2.sarNbBands + pfExample2.optNbBands)) =
      (List.replicate (pfExample2.nbOutputImages - (pfExample2.validPairs [0, 0] [7]).length)
        pfExample2.slotSentinel).flatten ∧
    ∀ i < pfExample2.nbOutputImages,
      slot (pfExample2.fuse [0, 0] [7]) i (pfExample2.sarNbBands + pfExample2.optNbBands) =
        if hi : i < (pfExample2.validPairs [0, 0] [7]).length
        then pfExample2.pairSub [0, 0] [7] ((pfExample2.validPairs [0, 0] [7]).get ⟨i, hi⟩)
        else pfExample2.slotSentinel) :=
  ⟨by decide, fuse_sentinel_trailing pfExample2 [0, 0] [7] (by decide)⟩

/-- C10: `PixelFunction::operator!=` always returns `false` and
`PixelFunction::operator==` always returns `true`, whatever the two
configurations are. -/
theorem pixelFunction_comparison_trivial (f g : PixelFunction) :
    f.notEqual g = false ∧ f.equal g = true :=
  ⟨rfl, rfl⟩

/-- The loop of `GetTimestampsWithIndices` (lines 324-341) with its running
`count`: tag each timestamp with its position.  String parsing
(`Str2Timestamp`, line 317-321) is outside the claims; the model receives
the already-parsed timestamps. -/
def getTimestampsWithIndicesAux : List ℚ → ℕ → List TimestampWithIndex
  | [], _ => []
  | t :: rest, count => ⟨t, count⟩ :: getTimestampsWithIndicesAux rest (count + 1)

/-- `GetTimestampsWithIndices` (lines 324-341). -/
def getTimestampsWithIndices (tss : List ℚ) : List TimestampWithIndex :=
  getTimestampsWithIndicesAux tss 0

/-- Key order of the `ASC` comparator (line 353-355). -/
def ascLe (a b : TimestampWithIndex) : Prop :=
  a.timestamp ≤ b.timestamp

/-- Key order of the `DES` comparator (line 360-362). -/
def desLe (a b : TimestampWithIndex) : Prop :=
  b.timestamp ≤ a.timestamp

/-- Key order of the absolute-gap comparators (lines 368-371 and 408-412):
compare distances of the timestamps to a center `c`. -/
def gapLe (c : ℚ) (a b : TimestampWithIndex) : Prop :=
  |a.timestamp - c| ≤ |b.timestamp - c|

instance : DecidableRel ascLe := fun a b =>
  inferInstanceAs (Decidable (a.timestamp ≤ b.timestamp))

instance : DecidableRel desLe := fun a b =>
  inferInstanceAs (Decidable (b.timestamp ≤ a.timestamp))

instance (c : ℚ) : DecidableRel (gapLe c) := fun a b =>
  inferInstanceAs (Decidable (|a.timestamp - c| ≤ |b.timestamp - c|))

instance : IsTotal TimestampWithIndex ascLe :=
  ⟨fun a b => le_total a.timestamp b.timestamp⟩

instance : IsTrans TimestampWithIndex ascLe :=
  ⟨fun _ _ _ h1 h2 => le_trans h1 h2⟩

instance : IsTotal TimestampWithIndex desLe :=
  ⟨fun a b => le_total b.timestamp a.timestamp⟩

instance : IsTrans TimestampWithIndex desLe :=
  ⟨fun _ _ _ h1 h2 => le_trans h2 h1⟩

instance (c : ℚ) : IsTotal TimestampWithIndex (gapLe c) :=
  ⟨fun a b => le_total _ _⟩

instance (c : ℚ) : IsTrans TimestampWithIndex (gapLe c) :=
  ⟨fun _ _ _ h1 h2 => le_trans h1 h2⟩

/-- `SortTimestampsWithIndices` (lines 345-375).  `std::sort` with a strict
comparator guarantees a permutation that is pairwise ordered by the
complementary non-strict key order, with unspecified tie order; it is
modelled by `List.insertionSort` on that key order.  The `ABS` branch reads
the `sorting.abs.reftimestamp` parameter (line 366); when it was never
supplied the run aborts before producing anything — modelled from the
spec: §4.2/§7 classify the missing reference timestamp as `ConfigError`
(the abort itself happens in the OTB parameter framework, outside this
repository's source). -/
def sortTimestampsWithIndices (sortMode : SortMode) (refTimestamp : Option ℚ)
    (ts : List TimestampWithIndex) : Except AppError (List TimestampWithIndex) :=
  match sortMode with
  | SortMode.ASC => Except.ok (List.insertionSort ascLe ts)
  | SortMode.DES => Except.ok (List.insertionSort desLe ts)
  | SortMode.ABS =>
    match refTimestamp with
    | none => Except.error AppError.configError
    | some refTs => Except.ok (List.insertionSort (gapLe refTs) ts)

/-- For one optical entry, the SAR entries paired with it (lines 406-418):
the SAR list re-sorted from closest to farthest, keeping those within
`maxgap`.  The source re-sorts its working list in place; sorting the
original list instead yields the same result up to the unspecified tie
order. -/
def sarCandidatesForOptical (sarTsWithIdxList : List TimestampWithIndex) (maxgap : ℚ)
    (optTsWithIdx : TimestampWithIndex) : List TimestampWithIndex :=
  (List.insertionSort (gapLe optTsWithIdx.timestamp) sarTsWithIdxList).filter
    fun s => decide (|s.timestamp - optTsWithIdx.timestamp| ≤ maxgap)

/-- The pairs contributed by one optical entry (line 416-418). -/
def pairsForOptical (sarTsWithIdxList : List TimestampWithIndex) (maxgap : ℚ)
    (optTsWithIdx : TimestampWithIndex) : List (ℕ × ℕ) :=
  (sarCandidatesForOptical sarTsWithIdxList maxgap optTsWithIdx).map
    fun s => (s.index, optTsWithIdx.index)

/-- `GetCandidatesPairs` (lines 380-434): sort the optical entries, collect
the pairs per optical entry, and abort with the fatal "No S1/S2 pairs
found" error (line 429-432) when the collected list is empty. -/
def getCandidatesPairs (sarTimestamps optTimestamps : List ℚ) (sortMode : SortMode)
    (refTimestamp : Option ℚ) (maxgap : ℚ) : Except AppError (List (ℕ × ℕ)) :=
  match sortTimestampsWithIndices sortMode refTimestamp
      (getTimestampsWithIndices optTimestamps) with
  | Except.error e => Except.error e
  | Except.ok optSorted =>
    let indicesPairs :=
      optSorted.flatMap (pairsForOptical (getTimestampsWithIndices sarTimestamps) maxgap)
    if indicesPairs.isEmpty then Except.error AppError.fatalError
    else Except.ok indicesPairs

theorem mem_getTimestampsWithIndicesAux : ∀ (tss : List ℚ) (c : ℕ)
    (e : TimestampWithIndex), e ∈ getTimestampsWithIndicesAux tss c →
    c ≤ e.index ∧ e.index - c < tss.length ∧ tss.getD (e.index - c) 0 = e.timestamp := by
  intro tss
  induction tss with
  | nil =>
    intro c e he
    simp [getTimestampsWithIndicesAux] at he
  | cons t rest ih =>
    intro c e he
    rw [getTimestampsWithIndicesAux] at he
    rcases List.mem_cons.mp he with h | h
    · subst h
      simp
    · rcases ih (c + 1) e h with ⟨h1, h2, h3⟩
      refine ⟨by omega, by simp; omega, ?_⟩
      have hsplit : e.index - c = (e.index - (c + 1)) + 1 := by omega
      rw [hsplit]
      simpa using h3

theorem timestamp_of_mem_aux : ∀ (tss : List ℚ) (c : ℕ) (e : TimestampWithIndex),
    e ∈ getTimestampsWithIndicesAux tss c → e.timestamp ∈ tss := by
  intro tss
  induction tss with
  | nil =>
    intro c e he
    simp [getTimestampsWithIndicesAux] at he
  | cons t rest ih =>
    intro c e he
    rw [getTimestampsWithIndicesAux] at he
    rcases List.mem_cons.mp he with h | h
    · subst h
      exact List.mem_cons_self _ _
    · exact List.mem_cons_of_mem _ (ih (c + 1) e h)

theorem exists_mem_aux_of_mem : ∀ (tss : List ℚ) (c : ℕ) (t : ℚ), t ∈ tss →
    ∃ e ∈ getTimestampsWithIndicesAux tss c, e.timestamp = t := by
  intro tss
  induction tss with
  | nil =>
    intro c t ht
    simp at ht
  | cons u rest ih =>
    intro c t ht
    rcases List.mem_cons.mp ht with h | h
    · exact ⟨⟨u, c⟩, by rw [getTimestampsWithIndicesAux]; exact List.mem_cons_self _ _,
        h.symm⟩
    · rcases ih (c + 1) t h with ⟨e, he, het⟩
      exact ⟨e, by rw [getTimestampsWithIndicesAux]; exact List.mem_cons_of_mem _ he, het⟩

theorem sort_ok_perm (sortMode : SortMode) (refTimestamp : Option ℚ)
    (l sorted : List TimestampWithIndex)
    (h : sortTimestampsWithIndices sortMode refTimestamp l = Except.ok sorted) :
    sorted.Perm l := by
  cases sortMode with
  | ASC =>
    simp only [sortTimestampsWithIndices] at h
    cases h
    exact List.perm_insertionSort ascLe l
  | DES =>
    simp only [sortTimestampsWithIndices] at h
    cases h
    exact List.perm_insertionSort desLe l
  | ABS =>
    simp only [sortTimestampsWithIndices] at h
    cases refTimestamp with
    | none => cases h
    | some r =>
      cases h
      exact List.perm_insertionSort (gapLe r) l

theorem getCandidatesPairs_ok (sarTimestamps optTimestamps : List ℚ)
    (sortMode : SortMode) (refTimestamp : Option ℚ) (maxgap : ℚ) (ps : List (ℕ × ℕ))
    (h : getCandidatesPairs sarTimestamps optTimestamps sortMode refTimestamp maxgap =
      Except.ok ps) :
    ∃ optSorted, sortTimestampsWithIndices sortMode refTimestamp
        (getTimestampsWithIndices optTimestamps) = Except.ok optSorted ∧
      optSorted.Perm (getTimestampsWithIndices optTimestamps) ∧
      ps = optSorted.flatMap
        (pairsForOptical (getTimestampsWithIndices sarTimestamps) maxgap) := by
  unfold getCandidatesPairs at h
  cases hs : sortTimestampsWithIndices sortMode refTimestamp
      (getTimestampsWithIndices optTimestamps) with
  | error e =>
    rw [hs] at h
    cases h
  | ok optSorted =>
    rw [hs] at h
    by_cases hemp : (optSorted.flatMap
        (pairsForOptical (getTimestampsWithIndices sarTimestamps) maxgap)).isEmpty
    · simp [hemp] at h
    · simp [hemp] at h
      exact ⟨optSorted, rfl,
        sort_ok_perm sortMode refTimestamp _ optSorted hs, h.symm⟩

/-- C3: every pair emitted by `GetCandidatesPairs` references in-range
images whose timestamps differ by at most `maxgap` (boundary inclusive). -/
theorem candidate_pairs_within_maxgap (sarTimestamps optTimestamps : List ℚ)
    (sortMode : SortMode) (refTimestamp : Option ℚ) (maxgap : ℚ) (ps : List (ℕ × ℕ))
    (h : getCandidatesPairs sarTimestamps optTimestamps sortMode refTimestamp maxgap =
      Except.ok ps) :
    ∀ p ∈ ps, p.1 < sarTimestamps.length ∧ p.2 < optTimestamps.length ∧
      |sarTimestamps.getD p.1 0 - optTimestamps.getD p.2 0| ≤ maxgap := by
  rcases getCandidatesPairs_ok sarTimestamps optTimestamps sortMode refTimestamp maxgap ps h
    with ⟨optSorted, _, hperm, hps⟩
  intro p hp
  rw [hps] at hp
  rcases List.mem_flatMap.mp hp with ⟨o, ho, hpo⟩
  rcases List.mem_map.mp hpo with ⟨s, hs, hsp⟩
  have hsgap : |s.timestamp - o.timestamp| ≤ maxgap := by
    have := List.of_mem_filter hs
    simpa using this
  have hssar : s ∈ getTimestampsWithIndices sarTimestamps := by
    have hmem := List.mem_filter.mp hs |>.1
    exact ((List.perm_insertionSort (gapLe o.timestamp) _).mem_iff).mp hmem
  have hoopt : o ∈ getTimestampsWithIndices optTimestamps := hperm.mem_iff.mp ho
  rcases mem_getTimestampsWithIndicesAux sarTimestamps 0 s hssar with ⟨_, hs2, hs3⟩
  rcases mem_getTimestampsWithIndicesAux optTimestamps 0 o hoopt with ⟨_, ho2, ho3⟩
  rw [← hsp]
  refine ⟨by simpa using hs2, by simpa using ho2, ?_⟩
  show |sarTimestamps.getD s.index 0 - optTimestamps.getD o.index 0| ≤ maxgap
  rw [show s.index = s.index - 0 from rfl, show o.index = o.index - 0 from rfl, hs3, ho3]
  exact hsgap

/-- Witness for C3: SAR timestamps [0, 5], optical [6], maxgap 2 —
only the pair (SAR 1, OPT 0) survives, with gap 1 ≤ 2. -/
theorem candidate_pairs_within_maxgap_witness :
    getCandidatesPairs [0, 5] [6] SortMode.ASC none 2 = Except.ok [(1, 0)] ∧
    ∀ p ∈ [((1 : ℕ), (0 : ℕ))], p.1 < ([0, 5] : List ℚ).length ∧
      p.2 < ([6] : List ℚ).length ∧
      |([0, 5] : List ℚ).getD p.1 0 - ([6] : List ℚ).getD p.2 0| ≤ 2 :=
  ⟨by
    norm_num [getCandidatesPairs, sortTimestampsWithIndices, getTimestampsWithIndices,
      getTimestampsWithIndicesAux, pairsForOptical, sarCandidatesForOptical, gapLe, ascLe,
      List.insertionSort, List.orderedInsert],
   candidate_pairs_within_maxgap [0, 5] [6] SortMode.ASC none 2 [(1, 0)] (by
    norm_num [getCandidatesPairs, sortTimestampsWithIndices, getTimestampsWithIndices,
      getTimestampsWithIndicesAux, pairsForOptical, sarCandidatesForOptical, gapLe, ascLe,
      List.insertionSort, List.orderedInsert])⟩

theorem sort_ok_exists (sortMode : SortMode) (refTimestamp : Option ℚ)
    (l : List TimestampWithIndex)
    (hmode : sortMode ≠ SortMode.ABS ∨ ∃ r, refTimestamp = some r) :
    ∃ outer, sortTimestampsWithIndices sortMode refTimestamp l = Except.ok outer := by
  cases sortMode with
  | ASC => exact ⟨_, rfl⟩
  | DES => exact ⟨_, rfl⟩
  | ABS =>
    rcases hmode with h | ⟨r, hr⟩
    · exact absurd rfl h
    · subst hr
      exact ⟨_, rfl⟩

/-- C4: the emitted candidate-pair list is the concatenation of per-optical
groups taken in the sorted outer order; the outer optical entries follow
the selected policy (ASC non-decreasing, DES non-increasing, ABS
non-decreasing absolute gap to the reference), and inside each group the
SAR entries are in ascending absolute gap to the group's optical
timestamp. -/
theorem candidate_pairs_ordered (sarTimestamps optTimestamps : List ℚ)
    (sortMode : SortMode) (refTimestamp : Option ℚ) (maxgap : ℚ)
    (outer : List TimestampWithIndex)
    (houter : sortTimestampsWithIndices sortMode refTimestamp
      (getTimestampsWithIndices optTimestamps) = Except.ok outer) :
    (∀ ps, getCandidatesPairs sarTimestamps optTimestamps sortMode refTimestamp maxgap =
        Except.ok ps →
      ps = outer.flatMap
        (pairsForOptical (getTimestampsWithIndices sarTimestamps) maxgap)) ∧
    (sortMode = SortMode.ASC → outer.Sorted ascLe) ∧
    (sortMode = SortMode.DES → outer.Sorted desLe) ∧
    (∀ r, sortMode = SortMode.ABS → refTimestamp = some r → outer.Sorted (gapLe r)) ∧
    (∀ o ∈ outer,
      (sarCandidatesForOptical (getTimestampsWithIndices sarTimestamps) maxgap o).Sorted
        (gapLe o.timestamp)) := by
  refine ⟨?_, ?_, ?_, ?_, ?_⟩
  · intro ps hps
    rcases getCandidatesPairs_ok sarTimestamps optTimestamps sortMode refTimestamp maxgap
      ps hps with ⟨optSorted, hsort, _, hflat⟩
    rw [houter] at hsort
    cases hsort
    exact hflat
  · intro hm
    subst hm
    simp only [sortTimestampsWithIndices] at houter
    cases houter
    exact List.sorted_insertionSort ascLe _
  · intro hm
    subst hm
    simp only [sortTimestampsWithIndices] at houter
    cases houter
    exact List.sorted_insertionSort desLe _
  · intro r hm hr
    subst hm
    subst hr
    simp only [sortTimestampsWithIndices] at houter
    cases houter
    exact List.sorted_insertionSort (gapLe r) _
  · intro o _
    exact (List.sorted_insertionSort (gapLe o.timestamp) _).filter _

/-- Witness for C4 in ASC mode: optical timestamps [10, 5] are re-sorted
to [5, 10]. -/
theorem candidate_pairs_ordered_witness :
    sortTimestampsWithIndices SortMode.ASC none (getTimestampsWithIndices [10, 5]) =
      Except.ok [⟨5, 1⟩, ⟨10, 0⟩] ∧
    ((∀ ps, getCandidatesPairs [0] [10, 5] SortMode.ASC none 100 = Except.ok ps →
      ps = List.flatMap [⟨5, 1⟩, ⟨10, 0⟩]
        (pairsForOptical (getTimestampsWithIndices [0]) 100)) ∧
    (SortMode.ASC = SortMode.ASC → List.Sorted ascLe [⟨5, 1⟩, ⟨10, 0⟩]) ∧
    (SortMode.ASC = SortMode.DES → List.Sorted desLe [⟨5, 1⟩, ⟨10, 0⟩]) ∧
    (∀ r, SortMode.ASC = SortMode.ABS → (none : Option ℚ) = some r →
      List.Sorted (gapLe r) [⟨5, 1⟩, ⟨10, 0⟩]) ∧
    (∀ o ∈ [(⟨5, 1⟩ : TimestampWithIndex), ⟨10, 0⟩],
      (sarCandidatesForOptical (getTimestampsWithIndices [0]) 100 o).Sorted
        (gapLe o.timestamp))) :=
  ⟨by rfl, candidate_pairs_ordered [0] [10, 5] SortMode.ASC none 100
    [⟨5, 1⟩, ⟨10, 0⟩] (by rfl)⟩

/-- C6: if no (SAR, optical) timestamp combination passes the gap filter,
`GetCandidatesPairs` aborts with the fatal error; if some combination
passes, it returns a nonempty pair list. -/
theorem no_pairs_fatal (sarTimestamps optTimestamps : List ℚ) (sortMode : SortMode)
    (refTimestamp : Option ℚ) (maxgap : ℚ)
    (hmode : sortMode ≠ SortMode.ABS ∨ ∃ r, refTimestamp = some r) :
    ((∀ s ∈ sarTimestamps, ∀ o ∈ optTimestamps, ¬(|s - o| ≤ maxgap)) →
      getCandidatesPairs sarTimestamps optTimestamps sortMode refTimestamp maxgap =
        Except.error AppError.fatalError) ∧
    ((∃ s ∈ sarTimestamps, ∃ o ∈ optTimestamps, |s - o| ≤ maxgap) →
      ∃ ps, getCandidatesPairs sarTimestamps optTimestamps sortMode refTimestamp maxgap =
          Except.ok ps ∧ ps ≠ []) := by
  rcases sort_ok_exists sortMode refTimestamp (getTimestampsWithIndices optTimestamps)
    hmode with ⟨outer, hsort⟩
  have hperm := sort_ok_perm sortMode refTimestamp _ outer hsort
  constructor
  · intro hnone
    have hnil : outer.flatMap
        (pairsForOptical (getTimestampsWithIndices sarTimestamps) maxgap) = [] := by
      rw [List.flatMap_eq_nil_iff]
      intro o ho
      rw [pairsForOptical, sarCandidatesForOptical]
      have hfil : (List.insertionSort (gapLe o.timestamp)
          (getTimestampsWithIndices sarTimestamps)).filter
            (fun s => decide (|s.timestamp - o.timestamp| ≤ maxgap)) = [] := by
        rw [List.filter_eq_nil_iff]
        intro s hsmem
        have hssar : s ∈ getTimestampsWithIndices sarTimestamps :=
          ((List.perm_insertionSort (gapLe o.timestamp) _).mem_iff).mp hsmem
        have hst : s.timestamp ∈ sarTimestamps := timestamp_of_mem_aux _ 0 s hssar
        have hot : o.timestamp ∈ optTimestamps :=
          timestamp_of_mem_aux _ 0 o (hperm.mem_iff.mp ho)
        simpa using hnone s.timestamp hst o.timestamp hot
      rw [hfil]
      rfl
    unfold getCandidatesPairs
    rw [hsort]
    simp [hnil]
  · intro hsome
    rcases hsome with ⟨s, hs, o, ho, hgap⟩
    rcases exists_mem_aux_of_mem optTimestamps 0 o ho with ⟨oe, hoe, hoet⟩
    rcases exists_mem_aux_of_mem sarTimestamps 0 s hs with ⟨se, hse, hset⟩
    have hoeout : oe ∈ outer := hperm.mem_iff.mpr hoe
    have hsesort : se ∈ List.insertionSort (gapLe oe.timestamp)
        (getTimestampsWithIndices sarTimestamps) :=
      ((List.perm_insertionSort (gapLe oe.timestamp) _).mem_iff).mpr hse
    have hsefil : se ∈ sarCandidatesForOptical (getTimestampsWithIndices sarTimestamps)
        maxgap oe := by
      rw [sarCandidatesForOptical, List.mem_filter]
      exact ⟨hsesort, by rw [hset, hoet]; simpa using hgap⟩
    have hmem : (se.index, oe.index) ∈ outer.flatMap
        (pairsForOptical (getTimestampsWithIndices sarTimestamps) maxgap) := by
      rw [List.mem_flatMap]
      exact ⟨oe, hoeout, by rw [pairsForOptical]; exact List.mem_map_of_mem _ hsefil⟩
    have hne : outer.flatMap
        (pairsForOptical (getTimestampsWithIndices sarTimestamps) maxgap) ≠ [] :=
      List.ne_nil_of_mem hmem
    refine ⟨outer.flatMap (pairsForOptical (getTimestampsWithIndices sarTimestamps)
      maxgap), ?_, hne⟩
    unfold getCandidatesPairs
    rw [hsort]
    have hempf : (outer.flatMap (pairsForOptical
        (getTimestampsWithIndices sarTimestamps) maxgap)).isEmpty = false := by
      rw [← Bool.not_eq_true]
      intro habs
      exact hne (List.isEmpty_iff.mp habs)
    simp [hempf]

/-- Witness for C6 with ASC sorting (the mode hypothesis holds trivially):
both implications instantiated at SAR [0], optical [1000], maxgap 1. -/
theorem no_pairs_fatal_witness :
    (SortMode.ASC ≠ SortMode.ABS ∨ ∃ r, (none : Option ℚ) = some r) ∧
    (((∀ s ∈ [(0 : ℚ)], ∀ o ∈ [(1000 : ℚ)], ¬(|s - o| ≤ 1)) →
      getCandidatesPairs [0] [1000] SortMode.ASC none 1 =
        Except.error AppError.fatalError) ∧
    ((∃ s ∈ [(0 : ℚ)], ∃ o ∈ [(1000 : ℚ)], |s - o| ≤ 1) →
      ∃ ps, getCandidatesPairs [0] [1000] SortMode.ASC none 1 = Except.ok ps ∧
        ps ≠ [])) :=
  ⟨Or.inl (by decide), no_pairs_fatal [0] [1000] SortMode.ASC none 1
    (Or.inl (by decide))⟩

/-- C9: in `ABS` sort mode with no reference timestamp supplied the run
fails with the configuration error before any pairs are produced. -/
theorem abs_without_reference (sarTimestamps optTimestamps : List ℚ) (maxgap : ℚ) :
    getCandidatesPairs sarTimestamps optTimestamps SortMode.ABS none maxgap =
      Except.error AppError.configError := by
  unfold getCandidatesPairs
  rfl

/-- One side of the index-compaction step of `InstantiateSources`
(lines 469-499): if the original index was already seen, return the
seen-list unchanged with the position of the first occurrence
(`std::find` iterator difference, line 482/498); otherwise append the
index and return the fresh counter value.  The running counter always
equals the seen-list length: both start at 0 / empty and are incremented /
extended together (lines 460-477). -/
def addIdx (oldIdx : List ℕ) (idx : ℕ) : List ℕ × ℕ :=
  if idx ∈ oldIdx then (oldIdx, oldIdx.indexOf idx) else (oldIdx ++ [idx], oldIdx.length)

/-- The loop of `InstantiateSources` over the input pairs (lines 463-505),
restricted to the index bookkeeping (the image-list `PushBack` calls are
raster plumbing outside the claims): threads the SAR and optical
seen-lists and emits the remapped pairs in order. -/
def instantiateSourcesPairs : List (ℕ × ℕ) → List ℕ → List ℕ → List (ℕ × ℕ)
  | [], _, _ => []
  | p :: rest, sarOldIdx, optOldIdx =>
    ((addIdx sarOldIdx p.1).2, (addIdx optOldIdx p.2).2) ::
      instantiateSourcesPairs rest (addIdx sarOldIdx p.1).1 (addIdx optOldIdx p.2).1

/-- `InstantiateSources` (lines 443-510): remap the candidate pairs into
compact index spaces, starting from empty seen-lists. -/
def instantiateSources (inIndicesPairs : List (ℕ × ℕ)) : List (ℕ × ℕ) :=
  instantiateSourcesPairs inIndicesPairs [] []

/-- Accumulation of one side's seen-list over a list of original indices. -/
def accumIndices (oldIdx : List ℕ) : List ℕ → List ℕ
  | [] => oldIdx
  | i :: rest => accumIndices (addIdx oldIdx i).1 rest

/-- The distinct original indices referenced by a list, in first-encounter
order: the final seen-list of the loop. -/
def distinctIndices (l : List ℕ) : List ℕ :=
  accumIndices [] l

theorem indexOf_append_of_mem {a : ℕ} : ∀ {l : List ℕ} (t : List ℕ), a ∈ l →
    (l ++ t).indexOf a = l.indexOf a := by
  intro l
  induction l with
  | nil =>
    intro t h
    simp at h
  | cons b l' ih =>
    intro t h
    by_cases hba : b = a
    · subst hba
      rw [List.cons_append, List.indexOf_cons_self, List.indexOf_cons_self]
    · have hbeq : (b == a) = false := beq_eq_false_iff_ne.mpr hba
      have h' : a ∈ l' := by
        rcases List.mem_cons.mp h with h1 | h1
        · exact absurd h1.symm hba
        · exact h1
      rw [List.cons_append, List.indexOf_cons, List.indexOf_cons, hbeq]
      simp [ih t h']

theorem indexOf_append_of_not_mem {a : ℕ} : ∀ {l : List ℕ} (t : List ℕ), a ∉ l →
    (l ++ t).indexOf a = l.length + t.indexOf a := by
  intro l
  induction l with
  | nil =>
    intro t _
    simp
  | cons b l' ih =>
    intro t h
    have hba : b ≠ a := fun hb => h (hb ▸ List.mem_cons_self b l')
    have hbeq : (b == a) = false := beq_eq_false_iff_ne.mpr hba
    have h' : a ∉ l' := fun hm => h (List.mem_cons_of_mem b hm)
    rw [List.cons_append, List.indexOf_cons, hbeq]
    simp [ih t h', List.length_cons]
    omega

theorem accumIndices_append : ∀ (l oldIdx : List ℕ),
    ∃ d, accumIndices oldIdx l = oldIdx ++ d := by
  intro l
  induction l with
  | nil =>
    intro oldIdx
    exact ⟨[], by simp [accumIndices]⟩
  | cons i rest ih =>
    intro oldIdx
    rw [accumIndices, addIdx]
    by_cases hmem : i ∈ oldIdx
    · rw [if_pos hmem]
      exact ih oldIdx
    · rw [if_neg hmem]
      rcases ih (oldIdx ++ [i]) with ⟨d, hd⟩
      exact ⟨[i] ++ d, by rw [hd, List.append_assoc]⟩

theorem mem_accumIndices : ∀ (l oldIdx : List ℕ) (a : ℕ),
    a ∈ accumIndices oldIdx l ↔ a ∈ oldIdx ∨ a ∈ l := by
  intro l
  induction l with
  | nil =>
    intro oldIdx a
    simp [accumIndices]
  | cons i rest ih =>
    intro oldIdx a
    rw [accumIndices, addIdx]
    by_cases hmem : i ∈ oldIdx
    · rw [if_pos hmem, ih]
      constructor
      · rintro (h | h)
        · exact Or.inl h
        · exact Or.inr (List.mem_cons_of_mem i h)
      · rintro (h | h)
        · exact Or.inl h
        · rcases List.mem_cons.mp h with h1 | h1
          · exact Or.inl (h1 ▸ hmem)
          · exact Or.inr h1
    · rw [if_neg hmem, ih]
      simp [List.mem_append, List.mem_cons]
      tauto

theorem nodup_accumIndices : ∀ (l oldIdx : List ℕ), oldIdx.Nodup →
    (accumIndices oldIdx l).Nodup := by
  intro l
  induction l with
  | nil =>
    intro oldIdx h
    simpa [accumIndices] using h
  | cons i rest ih =>
    intro oldIdx h
    rw [accumIndices, addIdx]
    by_cases hmem : i ∈ oldIdx
    · rw [if_pos hmem]
      exact ih oldIdx h
    · rw [if_neg hmem]
      refine ih (oldIdx ++ [i]) (List.Nodup.append h (List.nodup_singleton i) ?_)
      intro a ha hai
      rcases List.mem_singleton.mp hai with rfl
      exact hmem ha

theorem instantiateSourcesPairs_spec : ∀ (pairs : List (ℕ × ℕ)) (sOld oOld : List ℕ),
    instantiateSourcesPairs pairs sOld oOld =
      pairs.map (fun p =>
        ((accumIndices sOld (pairs.map Prod.fst)).indexOf p.1,
         (accumIndices oOld (pairs.map Prod.snd)).indexOf p.2)) := by
  intro pairs
  induction pairs with
  | nil =>
    intro sOld oOld
    simp [instantiateSourcesPairs]
  | cons p rest ih =>
    intro sOld oOld
    have hhead : ∀ (old : List ℕ) (x : ℕ) (rest' : List ℕ),
        (addIdx old x).2 = (accumIndices (addIdx old x).1 rest').indexOf x := by
      intro old x rest'
      rcases accumIndices_append rest' (addIdx old x).1 with ⟨d, hd⟩
      rw [hd]
      by_cases hmem : x ∈ old
      · rw [addIdx, if_pos hmem, indexOf_append_of_mem d hmem]
      · rw [addIdx, if_neg hmem]
        rw [List.append_assoc, indexOf_append_of_not_mem ([x] ++ d) hmem]
        simp
    rw [instantiateSourcesPairs, List.map_cons, ih]
    have hsacc : accumIndices sOld ((p :: rest).map Prod.fst) =
        accumIndices (addIdx sOld p.1).1 (rest.map Prod.fst) := rfl
    have hoacc : accumIndices oOld ((p :: rest).map Prod.snd) =
        accumIndices (addIdx oOld p.2).1 (rest.map Prod.snd) := rfl
    rw [hsacc, hoacc, ← hhead sOld p.1 (rest.map Prod.fst),
      ← hhead oOld p.2 (rest.map Prod.snd)]

/-- C5: compaction preserves length and order — the i-th resolved pair is
the i-th candidate pair with both indices replaced by their positions in
the first-encounter-ordered distinct lists — and on each side the new
indices used are exactly `{0, …, k−1}` for `k` the number of distinct
original indices referenced. -/
theorem instantiateSources_spec (inIndicesPairs : List (ℕ × ℕ)) :
    instantiateSources inIndicesPairs =
      inIndicesPairs.map (fun p =>
        ((distinctIndices (inIndicesPairs.map Prod.fst)).indexOf p.1,
         (distinctIndices (inIndicesPairs.map Prod.snd)).indexOf p.2)) ∧
    (distinctIndices (inIndicesPairs.map Prod.fst)).Nodup ∧
    (distinctIndices (inIndicesPairs.map Prod.snd)).Nodup ∧
    (∀ a, a ∈ distinctIndices (inIndicesPairs.map Prod.fst) ↔
      a ∈ inIndicesPairs.map Prod.fst) ∧
    (∀ a, a ∈ distinctIndices (inIndicesPairs.map Prod.snd) ↔
      a ∈ inIndicesPairs.map Prod.snd) ∧
    (∀ j, j ∈ (instantiateSources inIndicesPairs).map Prod.fst ↔
      j < (distinctIndices (inIndicesPairs.map Prod.fst)).length) ∧
    (∀ j, j ∈ (instantiateSources inIndicesPairs).map Prod.snd ↔
      j < (distinctIndices (inIndicesPairs.map Prod.snd)).length) := by
  have hspec : instantiateSources inIndicesPairs =
      inIndicesPairs.map (fun p =>
        ((distinctIndices (inIndicesPairs.map Prod.fst)).indexOf p.1,
         (distinctIndices (inIndicesPairs.map Prod.snd)).indexOf p.2)) :=
    instantiateSourcesPairs_spec inIndicesPairs [] []
  have hmemf : ∀ a, a ∈ distinctIndices (inIndicesPairs.map Prod.fst) ↔
      a ∈ inIndicesPairs.map Prod.fst := by
    intro a
    rw [distinctIndices, mem_accumIndices]
    simp
  have hmems : ∀ a, a ∈ distinctIndices (inIndicesPairs.map Prod.snd) ↔
      a ∈ inIndicesPairs.map Prod.snd := by
    intro a
    rw [distinctIndices, mem_accumIndices]
    simp
  have hndf : (distinctIndices (inIndicesPairs.map Prod.fst)).Nodup :=
    nodup_accumIndices _ [] List.nodup_nil
  have hnds : (distinctIndices (inIndicesPairs.map Prod.snd)).Nodup :=
    nodup_accumIndices _ [] List.nodup_nil
  have hrange : ∀ (side : (ℕ × ℕ) → ℕ)
      (hside : ∀ p : ℕ × ℕ, side p = p.1 ∨ side p = p.2)
      (dist : List ℕ) (hnd : dist.Nodup)
      (hmem : ∀ a, a ∈ dist ↔ a ∈ inIndicesPairs.map side)
      (hout : (instantiateSources inIndicesPairs).map side =
        (inIndicesPairs.map side).map dist.indexOf),
      ∀ j, j ∈ (instantiateSources inIndicesPairs).map side ↔ j < dist.length := by
    intro side _ dist hnd hmem hout j
    rw [hout]
    constructor
    · intro hj
      rcases List.mem_map.mp hj with ⟨a, ha, haj⟩
      have hadist : a ∈ dist := (hmem a).mpr ha
      rw [← haj]
      exact List.indexOf_lt_length.mpr hadist
    · intro hj
      have hget : dist.get ⟨j, hj⟩ ∈ dist := List.get_mem dist j hj
      have hmem2 : dist.get ⟨j, hj⟩ ∈ inIndicesPairs.map side := (hmem _).mp hget
      refine List.mem_map.mpr ⟨dist.get ⟨j, hj⟩, hmem2, ?_⟩
      exact List.get_indexOf hnd ⟨j, hj⟩
  refine ⟨hspec, hndf, hnds, hmemf, hmems, ?_, ?_⟩
  · refine hrange Prod.fst (fun p => Or.inl rfl) _ hndf hmemf ?_
    rw [hspec, List.map_map, List.map_map]
    rfl
  · refine hrange Prod.snd (fun p => Or.inr rfl) _ hnds hmems ?_
    rw [hspec, List.map_map, List.map_map]
    rfl

/-- The channel ranges programmed into the two `MultiChannelExtractROI`
slicers of one loop iteration of `InitFilter` (lines 572-586):
SAR `[start, start + sarNbBands - 1]`, optical
`[sarNbBands + start, start + sarNbBands + optNbBands - 1]`, 1-based
inclusive. -/
def slotRanges (sarNbBands optNbBands start : ℕ) : (ℕ × ℕ) × (ℕ × ℕ) :=
  ((start, start + sarNbBands - 1),
   (sarNbBands + start, start + sarNbBands + optNbBands - 1))

/-- The slicer-initialization loop of `InitFilter` (lines 569-589),
counting the remaining outputs and advancing `start` by
`sarNbBands + optNbBands` after each slot. -/
def planSlicesLoop (sarNbBands optNbBands : ℕ) : ℕ → ℕ → List ((ℕ × ℕ) × (ℕ × ℕ))
  | 0, _ => []
  | n + 1, start =>
    slotRanges sarNbBands optNbBands start ::
      planSlicesLoop sarNbBands optNbBands n (start + (sarNbBands + optNbBands))

/-- The channel ranges of all `nbOutputs` slots, with `start` initialized
to channel 1 (line 569). -/
def planSlices (sarNbBands optNbBands nbOutputs : ℕ) : List ((ℕ × ℕ) × (ℕ × ℕ)) :=
  planSlicesLoop sarNbBands optNbBands nbOutputs 1

theorem planSlicesLoop_getD (r o : ℕ) (d : (ℕ × ℕ) × (ℕ × ℕ)) :
    ∀ (i N start : ℕ), i < N →
    (planSlicesLoop r o N start).getD i d = slotRanges r o (start + i * (r + o)) := by
  intro i
  induction i with
  | zero =>
    intro N start h
    cases N with
    | zero => omega
    | succ n => simp [planSlicesLoop]
  | succ j ih =>
    intro N start h
    cases N with
    | zero => omega
    | succ n =>
      rw [planSlicesLoop]
      show (planSlicesLoop r o n (start + (r + o))).getD j d = _
      rw [ih n (start + (r + o)) (by omega)]
      congr 1
      ring

/-- C8: slot `i` (0-based) occupies 1-based inclusive fused channels
`[i*(sarNbBands+optNbBands)+1 .. +sarNbBands]` for SAR and the following
`optNbBands` channels for optical; in particular two slots of a 2-band SAR
and 1-band optical stack are sliced as radar [1,2]/optical [3] and
radar [4,5]/optical [6]. -/
theorem planSlices_spec (sarNbBands optNbBands nbOutputs : ℕ) (i : ℕ)
    (hi : i < nbOutputs) :
    (planSlices sarNbBands optNbBands nbOutputs).getD i ((0, 0), (0, 0)) =
      ((i * (sarNbBands + optNbBands) + 1,
        i * (sarNbBands + optNbBands) + sarNbBands),
       (i * (sarNbBands + optNbBands) + sarNbBands + 1,
        i * (sarNbBands + optNbBands) + sarNbBands + optNbBands)) ∧
    planSlices 2 1 2 = [((1, 2), (3, 3)), ((4, 5), (6, 6))] := by
  constructor
  · rw [planSlices, planSlicesLoop_getD sarNbBands optNbBands _ i nbOutputs 1 hi,
      slotRanges]
    generalize i * (sarNbBands + optNbBands) = e
    simp only [Prod.mk.injEq]
    omega
  · rfl

/-- Witness for C8 at slot 0 of the spec's example layout. -/
theorem planSlices_spec_witness :
    (0 : ℕ) < 2 ∧
    ((planSlices 2 1 2).getD 0 ((0, 0), (0, 0)) =
      ((0 * (2 + 1) + 1, 0 * (2 + 1) + 2),
       (0 * (2 + 1) + 2 + 1, 0 * (2 + 1) + 2 + 1)) ∧
    planSlices 2 1 2 = [((1, 2), (3, 3)), ((4, 5), (6, 6))]) :=
  ⟨by decide, planSlices_spec 2 1 2 0 (by decide)⟩

end Decloud
